import Mathlib

/-!
# goreload: the watch-and-restart loop of `src/goreload/goreload.go`

A shallow embedding of the program.  The package-level variables of the Go file
(`options`, `watchedDirs`, `cmd`, `run`) become the fields of `State`; every call
that leaves the program (printing, `fileWatcher.Watch`, `fileWatcher.RemoveWatch`,
`cmd.Start`, `cmd.Process.Kill`, `go processChanges()`) is appended to a trace, so
that order and number of calls can be stated.  What the environment answers
(`os.Stat`, the items received from the two watcher channels, the result of
`exec.LookPath`, `cmd.Start`, `fsnotify.NewWatcher`, the entries `filepath.Walk`
finds) is an explicit input.
-/

namespace Goreload

/-! ## Data model -/

/-- Options of the command line (`type Options struct`). -/
structure Options where
  Verbose : Bool
deriving DecidableEq, Repr

/-- An `fsnotify.FileEvent` as the program reads it: the path and the answers of the
three tests `IsCreate()`, `IsDelete()`, `IsRename()`.  The library computes them from
a bit mask, so more than one may be true; an event for which none is true is a
modification. -/
structure FileEvent where
  Name : String
  IsCreate : Bool
  IsDelete : Bool
  IsRename : Bool
deriving DecidableEq, Repr

/-- Result of `os.Stat(path)`: an error, or a file info with its `IsDir()`. -/
inductive StatResult where
  | err (msg : String)
  | info (IsDir : Bool)
deriving DecidableEq, Repr

/-- One item taken by the inner `select` of `processChanges`: an event from
`fileWatcher.Event`, together with what `os.Stat(e.Name)` answers while this event is
handled (read only on the paths that call `watchIfDir`), or an error from
`fileWatcher.Error`. -/
inductive Received where
  | Event (e : FileEvent) (stat : StatResult)
  | Error (err : String)
deriving DecidableEq, Repr

/-- The standard streams a child can be wired to. -/
inductive Stream where
  | osStdin
  | osStdout
  | osStderr
deriving DecidableEq, Repr

/-- An `*exec.Cmd`.  `id` is the identity of the pointer (the number of the `run()`
call that allocated it).  `Path` is the path of the command to run and `Args` the
command line, name first.  `lookPathErr` records that `exec.Command` could not
resolve the name.  `Process` is `nil` (`none`) until `Start` succeeds and is the
process (its pid) afterwards. -/
structure Cmd where
  id : Nat
  Path : String
  Args : List String
  Stdin : Option Stream
  Stdout : Option Stream
  Stderr : Option Stream
  lookPathErr : Bool
  Process : Option Nat
deriving DecidableEq, Repr

/-- Calls that leave the program, in the order they are made. -/
inductive Effect where
  | Println (operands : List String)
  | Printf (format : String) (operands : List String)
  | Watch (path : String)
  | RemoveWatch (path : String)
  | Start (c : Cmd)
  | Kill (c : Cmd)
  | GoProcessChanges
deriving DecidableEq, Repr

/-- The part of the world `run` writes to: the handle allocator and the trace. -/
structure World where
  nextId : Nat
  trace : List Effect
deriving DecidableEq

/-- What the environment contributes to one call of `run()`: the formatted
`time.Now()`, what `exec.LookPath` answers for a bare command name (`some path`, or
`none` when the name is not found), and what starting the process gives once the name
is resolved (`some pid`, or `none` when it fails). -/
structure Launch where
  now : String
  lookPath : Option String
  started : Option Nat
deriving DecidableEq, Repr

/-- The package-level variables while the loop runs.  `files` is the slice captured
by the closure stored in `run`. -/
structure State where
  options : Options
  watchedDirs : Finset String
  cmd : Cmd
  files : List String
  world : World
deriving DecidableEq

/-- Append one effect to the trace. -/
def World.emit (w : World) (e : Effect) : World :=
  { w with trace := w.trace ++ [e] }

/-- Append one effect to the trace of a state. -/
def State.emit (s : State) (e : Effect) : State :=
  { s with world := s.world.emit e }

/-! ## Launching -/

/-- The constructor `exec.Command(name, arg...)`: `Args` holds the name followed by
the arguments.  A name without path separator is resolved with `exec.LookPath`: `Path`
is the path found, or the name itself when the lookup fails, and the failure is
recorded; a name with a separator is used as it is.  Nothing is started yet. -/
def Command (id : Nat) (name : String) (arg : List String) (lookPath : Option String) : Cmd :=
  let bare : Bool := !(name.data.contains '/')
  { id := id,
    Path := if bare then lookPath.getD name else name,
    Args := name :: arg,
    Stdin := none, Stdout := none, Stderr := none,
    lookPathErr := bare && lookPath.isNone,
    Process := none }

/-- The method `cmd.Start()` as far as the handle shows it: a handle whose name was not
resolved is left as it is (`Start` returns the lookup error at once), otherwise
`Process` is set when the process could be started and stays `nil` when it could
not. -/
def Start (c : Cmd) (started : Option Nat) : Cmd :=
  if c.lookPathErr then c else { c with Process := started }

/-- The closure returned by `makeRun(files)`: print the status line, build
`go run files...`, wire the standard streams, `Start` (its error is dropped), return
the handle. -/
def makeRun (files : List String) (l : Launch) (w : World) : Cmd × World :=
  let w1 := w.emit (.Printf "Running [%s]...\n" [l.now])
  let args := ["run"] ++ files
  let cmd := Command w1.nextId "go" args l.lookPath
  let cmd := { cmd with Stdin := some .osStdin }
  let cmd := { cmd with Stdout := some .osStdout }
  let cmd := { cmd with Stderr := some .osStderr }
  let cmd := Start cmd l.started
  (cmd, { nextId := w1.nextId + 1, trace := w1.trace ++ [.Start cmd] })

/-- The global `run` called from a state. -/
def run (s : State) (l : Launch) : Cmd × State :=
  let r := makeRun s.files l s.world
  (r.1, { s with world := r.2 })

/-! ## The watched set -/

/-- Source `watchDir`: record the path, then ask the watcher to watch it. -/
def watchDir (s : State) (path : String) : State :=
  let s1 := { s with watchedDirs := insert path s.watchedDirs }
  s1.emit (.Watch path)

/-- Source `watchIfDir`; `stat` is the result of `os.Stat(path)`. -/
def watchIfDir (s : State) (path : String) (stat : StatResult) : State :=
  match stat with
  | .err msg =>
    if s.options.Verbose then s.emit (.Println ["Error: ", msg]) else s
  | .info isDir =>
    if isDir then watchDir s path else s

/-- The two lines `delete(watchedDirs, e.Name); fileWatcher.RemoveWatch(e.Name)`. -/
def unwatch (s : State) (path : String) : State :=
  let s1 := { s with watchedDirs := s.watchedDirs.erase path }
  s1.emit (.RemoveWatch path)

/-- The body of `case e := <-fileWatcher.Event` before `count++`. -/
def handleEvent (s : State) (e : FileEvent) (stat : StatResult) : State :=
  if e.IsCreate then
    watchIfDir s e.Name stat
  else if e.IsDelete then
    if e.Name ∈ s.watchedDirs then unwatch s e.Name else s
  else if e.IsRename then
    if e.Name ∈ s.watchedDirs then unwatch s e.Name else watchIfDir s e.Name stat
  else s

/-! ## One tick -/

/-- The inner `for { select { ... } }` of `processChanges`: the items that are ready
are taken one at a time; when neither channel has one the `default` case sets `done`
and the loop is left.  Returns the state and `count`. -/
def drainLoop : State → Nat → List Received → State × Nat
  | s, count, [] => (s, count)
  | s, count, .Event e stat :: rest => drainLoop (handleEvent s e stat) (count + 1) rest
  | s, count, .Error err :: rest => drainLoop (s.emit (.Println ["Error: ", err])) count rest

/-- The drain of one tick, `count` starting at 0. -/
def drain (s : State) (items : List Received) : State × Nat :=
  drainLoop s 0 items

/-- How a run of the loop stands: still running, or stopped by the run-time panic of a
nil pointer dereference (the state is the one reached when the panic is raised). -/
inductive Outcome where
  | running (s : State)
  | panicked (s : State)
deriving DecidableEq

/-- The state an outcome carries. -/
def Outcome.state : Outcome → State
  | .running s => s
  | .panicked s => s

/-- The statement `cmd = run()`. -/
def relaunch (s : State) (l : Launch) : State :=
  let r := run s l
  { r.2 with cmd := r.1 }

/-- The two statements `cmd.Process.Kill(); cmd = run()`.  `Kill` has a pointer
receiver and reads the process it points to, so calling it through the nil `Process`
of a handle whose `Start` failed panics; its returned error is dropped. -/
def restart (s : State) (l : Launch) : Outcome :=
  match s.cmd.Process with
  | none => .panicked s
  | some _ => .running (relaunch (s.emit (.Kill s.cmd)) l)

/-- What one tick receives: the items its drain takes and, if it restarts, what the
launch meets. -/
structure Tick where
  received : List Received
  launch : Launch
deriving DecidableEq, Repr

/-- The body of `case <-ticker.C`. -/
def tick (s : State) (t : Tick) : Outcome :=
  let d := drain s t.received
  if d.2 == 0 then .running d.1
  else restart d.1 t.launch

/-- The outer `for` of `processChanges` over the ticks of a finite prefix of its run;
a panic ends it. -/
def processChanges : State → List Tick → Outcome
  | s, [] => .running s
  | s, t :: ts =>
    match tick s t with
    | .running s1 => processChanges s1 ts
    | .panicked s1 => .panicked s1

/-! ## Start-up -/

/-- One call `filepath.Walk` makes to its callback: the path, the file info (`none`
for the nil info passed when `lstat` of the path fails, otherwise its `IsDir()`), and
the error met at this path (`none` for `nil`). -/
structure WalkEntry where
  path : String
  info : Option Bool
  err : Option String
deriving DecidableEq, Repr

/-- What the environment contributes to `main`: what the first `run()` meets, the
error `fsnotify.NewWatcher()` returns (`none` for success), and the entries the
initial walk comes upon. -/
structure MainEnv where
  launch : Launch
  newWatcher : Option String
  walk : List WalkEntry
deriving DecidableEq, Repr

/-- How `main` ends: it returns, it blocks on `<-make(chan struct{})`, or the program
is stopped by the run-time panic of a nil dereference. -/
inductive Exit where
  | returned
  | blocked
  | panicked
deriving DecidableEq, Repr

/-- How a call of the callback, or the walk, ends: it returns an error value (`none`
for `nil`), or it panics. -/
inductive WalkOutcome where
  | returned (s : State) (err : Option String)
  | panicked (s : State)
deriving DecidableEq

/-- The state a walk outcome carries. -/
def WalkOutcome.state : WalkOutcome → State
  | .returned s _ => s
  | .panicked s => s

/-- What `main` did: its trace, how it ended and, when the polling task was started,
the package-level variables once the walk is over. -/
structure MainResult where
  trace : List Effect
  exit : Exit
  globals : Option State
deriving DecidableEq

/-- The flag loop `for i := 1; i < len(os.Args); i++`: called on the arguments from
index `i` on; returns `options` and `filesArgsIndex`, which is assigned only on the
`break`. -/
def flagLoop : List String → Nat → Options → Nat → Options × Nat
  | [], _, options, filesArgsIndex => (options, filesArgsIndex)
  | a :: rest, i, options, filesArgsIndex =>
    if a = "-v" then flagLoop rest (i + 1) { options with Verbose := true } filesArgsIndex
    else (options, i)

/-- Source `visit`, the callback of the initial walk.  The error argument is not
read; `f.IsDir()` on the nil info of a failed `lstat` panics; the value returned is
always `nil`. -/
def visit (s : State) (path : String) (f : Option Bool) (_err : Option String) :
    WalkOutcome :=
  match f with
  | none => .panicked s
  | some isDir => .returned (if isDir then watchDir s path else s) none

/-- The call `filepath.Walk(".", visit)` on the entries the walk comes upon: the
callback is called on each in turn, and `Walk` returns the first error the callback
returns, or `nil` when the entries are exhausted. -/
def Walk : List WalkEntry → State → WalkOutcome
  | [], s => .returned s none
  | x :: rest, s =>
    match visit s x.path x.info x.err with
    | .panicked s1 => .panicked s1
    | .returned s1 (some e) => .returned s1 (some e)
    | .returned s1 none => Walk rest s1

/-- The two lines that print the usage message and return. -/
def usageExit : MainResult :=
  { trace := [.Println ["Must have at least one file."]], exit := .returned, globals := none }

/-- The part of `main` from `go processChanges()` to the end: start the polling task,
walk the tree, report the error the walk returns, block.  The walk runs while the
polling task may already tick; `globals` records the variables when no tick falls
inside the walk. -/
def startLoopAndWalk (s : State) (walk : List WalkEntry) : MainResult :=
  let s1 := s.emit .GoProcessChanges
  match Walk walk s1 with
  | .panicked s2 => { trace := s2.world.trace, exit := .panicked, globals := none }
  | .returned s2 err =>
    let s3 := match err with
      | some e => s2.emit (.Println ["Error: ", e])
      | none => s2
    { trace := s3.world.trace, exit := .blocked, globals := some s3 }

/-- The part of `main` from `run = makeRun(os.Args[filesArgsIndex:])` to the end:
launch once, create the watcher (report its error and return), then start the polling
task and walk. -/
def launchAndWatch (options : Options) (files : List String) (env : MainEnv) : MainResult :=
  let r := makeRun files env.launch { nextId := 0, trace := [] }
  let s : State :=
    { options := options, watchedDirs := ∅, cmd := r.1, files := files, world := r.2 }
  match env.newWatcher with
  | some e =>
    { trace := (s.emit (.Println ["Fatal error: ", e])).world.trace,
      exit := .returned, globals := none }
  | none => startLoopAndWalk s env.walk

/-- Source `main` on `os.Args = args`. -/
def main (args : List String) (env : MainEnv) : MainResult :=
  if args.length = 1 then usageExit
  else
    let parsed := flagLoop (args.drop 1) 1 { Verbose := false } 0
    let filesArgsIndex := parsed.2
    if filesArgsIndex = args.length then usageExit
    else launchAndWatch parsed.1 (args.drop filesArgsIndex) env

/-! ## Vocabulary of the statements -/

/-- Number of items of a drain that came from `fileWatcher.Event`. -/
def numEvents : List Received → Nat
  | [] => 0
  | .Event _ _ :: rest => numEvents rest + 1
  | .Error _ :: rest => numEvents rest

/-- The events of a drain that name the path `p`, in arrival order. -/
def eventsNaming (p : String) : List Received → List FileEvent
  | [] => []
  | .Event e _ :: rest => if e.Name = p then e :: eventsNaming p rest else eventsNaming p rest
  | .Error _ :: rest => eventsNaming p rest

/-- The event is handled by the `IsCreate` branch. -/
def FileEvent.isCreated (e : FileEvent) : Bool := e.IsCreate

/-- The event is handled by the `IsDelete` branch (the tests are tried in order). -/
def FileEvent.isDeleted (e : FileEvent) : Bool := !e.IsCreate && e.IsDelete

/-- A modification event: none of the three tests holds. -/
def Modified (p : String) : FileEvent :=
  { Name := p, IsCreate := false, IsDelete := false, IsRename := false }

/-- The effects that belong to a restart: a kill, the status line, a launch. -/
def Effect.isRestart : Effect → Bool
  | .Kill _ => true
  | .Start _ => true
  | .Printf _ _ => true
  | _ => false

/-- The effects a state has beyond those of an earlier state. -/
def effectsSince (s s1 : State) : List Effect :=
  s1.world.trace.drop s.world.trace.length

/-- The kills of a trace, in order. -/
def killsOf : List Effect → List Cmd
  | [] => []
  | .Kill c :: rest => c :: killsOf rest
  | _ :: rest => killsOf rest

/-- The subscribe requests (`fileWatcher.Watch`) of a trace, in order. -/
def watchesOf : List Effect → List String
  | [] => []
  | .Watch p :: rest => p :: watchesOf rest
  | _ :: rest => watchesOf rest

/-- The launches of a trace, in order. -/
def startsOf : List Effect → List Cmd
  | [] => []
  | .Start c :: rest => c :: startsOf rest
  | _ :: rest => startsOf rest

/-- A step of the drain leaves the child, the launch arguments, the options and the
allocator alone and adds only effects that are no part of a restart. -/
def Quiet (s s1 : State) : Prop :=
  s1.cmd = s.cmd ∧ s1.files = s.files ∧ s1.options = s.options ∧
    s1.world.nextId = s.world.nextId ∧
    ∃ added, s1.world.trace = s.world.trace ++ added ∧ ∀ e ∈ added, e.isRestart = false

/-- Every launch of the trace has the command line `go run` followed by the captured
files. -/
def LaunchInv (s : State) : Prop :=
  ∀ c ∈ startsOf s.world.trace, c.Args = "go" :: "run" :: s.files

/-- The process a launch ends with: none when the name is not found or the process
cannot be started. -/
def Launch.process (l : Launch) : Option Nat :=
  match l.lookPath with
  | none => none
  | some _ => l.started

/-- The entry of a walk for a path whose `lstat` succeeds and that is read without
error. -/
def WalkEntry.found (x : String × Bool) : WalkEntry :=
  { path := x.1, info := some x.2, err := none }

/-- The subscribe requests of a walk: one for each directory, up to the first entry
without file info. -/
def walkWatches : List WalkEntry → List Effect
  | [] => []
  | x :: rest =>
    match x.info with
    | none => []
    | some true => .Watch x.path :: walkWatches rest
    | some false => walkWatches rest

/-- The two argument checks of `main` let the command line through. -/
def passesArgChecks (args : List String) : Prop :=
  args.length ≠ 1 ∧ (flagLoop (args.drop 1) 1 { Verbose := false } 0).2 ≠ args.length

instance (args : List String) : Decidable (passesArgChecks args) :=
  inferInstanceAs (Decidable (_ ∧ _))

/-- An environment of `main` in which everything succeeds. -/
def goodEnv : MainEnv :=
  { launch :=
      { now := "01 Nov 26 12:00:00", lookPath := some "/usr/local/go/bin/go", started := some 4242 },
    newWatcher := none,
    walk := [⟨".", some true, none⟩, ⟨"main.go", some false, none⟩, ⟨"sub", some true, none⟩] }

/-- An environment in which a file found in the root directory is gone when the walk
comes to `lstat` it. -/
def vanishedFileEnv : MainEnv :=
  { goodEnv with walk :=
      [⟨".", some true, none⟩,
       ⟨".main.go.swp", none, some "lstat .main.go.swp: no such file or directory"⟩] }

/-- An environment in which the directory `sub` cannot be read during the walk. -/
def unreadableDirEnv : MainEnv :=
  { goodEnv with walk :=
      [⟨".", some true, none⟩, ⟨"sub", some true, some "open sub: permission denied"⟩] }

/-- Events of the data model of the specification that concern a directory. -/
inductive DirEvent where
  | Created (p : String)
  | Deleted (p : String)
  | Renamed (p : String)
deriving DecidableEq, Repr

/-- The reference step of the specification on the watched set: Created inserts,
Deleted erases, Renamed erases a path that is in the set and inserts one that is
not. -/
def refStep (W : Finset String) : DirEvent → Finset String
  | .Created p => insert p W
  | .Deleted p => W.erase p
  | .Renamed p => if p ∈ W then W.erase p else insert p W

/-- The library event of a directory event: exactly one of the tests holds. -/
def DirEvent.toFileEvent : DirEvent → FileEvent
  | .Created p => { Name := p, IsCreate := true, IsDelete := false, IsRename := false }
  | .Deleted p => { Name := p, IsCreate := false, IsDelete := true, IsRename := false }
  | .Renamed p => { Name := p, IsCreate := false, IsDelete := false, IsRename := true }

/-- A directory event as the drain receives it when its path stats as a directory. -/
def DirEvent.received (ev : DirEvent) : Received :=
  .Event ev.toFileEvent (.info true)

/-- The ticks that drain the chunks of a sequence of directory events whose paths stat
as directories. -/
def dirTicks (chunks : List (List DirEvent × Launch)) : List Tick :=
  chunks.map fun c => ⟨c.1.map DirEvent.received, c.2⟩

/-- Number of ticks of a run whose drain took place: all of them when the loop is
still running, those up to the tick that panics otherwise. -/
def ticksDrained : State → List Tick → Nat
  | _, [] => 0
  | s, t :: ts =>
    match tick s t with
    | .running s1 => ticksDrained s1 ts + 1
    | .panicked _ => 1

/-- A state to evaluate examples at: nothing watched, the child of `go run main.go`
running as process 4242. -/
def exampleState : State :=
  { options := { Verbose := false }, watchedDirs := ∅,
    cmd := { Command 0 "go" ["run", "main.go"] (some "/usr/local/go/bin/go") with
      Stdin := some .osStdin, Stdout := some .osStdout, Stderr := some .osStderr,
      Process := some 4242 },
    files := ["main.go"],
    world := { nextId := 1, trace := [] } }

/-- The example state after a launch that failed: the handle has no process. -/
def failedLaunchState : State :=
  { exampleState with cmd := { exampleState.cmd with Process := none } }

/-- The drained pair of events of the scenario: a path is created, then deleted, with
whatever `os.Stat` answers at either event. -/
def createdThenDeleted (sub : String) (st1 st2 : StatResult) : List Received :=
  [.Event (DirEvent.Created sub).toFileEvent st1, .Event (DirEvent.Deleted sub).toFileEvent st2]

/-- The example state with the directory `sub` already watched. -/
def watchingSubState : State :=
  { exampleState with watchedDirs := {"sub"} }

/-- Five directory events, as one sequence. -/
def exampleDirEvents : List DirEvent :=
  [.Created "sub", .Renamed "sub", .Created "lib", .Deleted "lib", .Renamed "tmp"]

/-- The same five events split over three ticks, the second of them empty. -/
def exampleChunks : List (List DirEvent × Launch) :=
  [([.Created "sub", .Renamed "sub", .Created "lib"],
      ⟨"01 Nov 26 12:00:03", some "/usr/local/go/bin/go", some 4243⟩),
   ([], ⟨"01 Nov 26 12:00:06", some "/usr/local/go/bin/go", some 4244⟩),
   ([.Deleted "lib", .Renamed "tmp"],
      ⟨"01 Nov 26 12:00:09", some "/usr/local/go/bin/go", some 4245⟩)]

/-- A drain in which `sub` is created, another path is touched, and `sub` is deleted
last. -/
def exampleDrain : List Received :=
  [.Event (DirEvent.Created "sub").toFileEvent (.info true),
   .Error "inotify: event queue overflow",
   .Event (DirEvent.Renamed "other").toFileEvent (.info true),
   .Event (DirEvent.Deleted "sub").toFileEvent (.err "no such file or directory")]

/-- A creation event for a temporary file. -/
def tempCreated : FileEvent :=
  (DirEvent.Created ".main.go.swp").toFileEvent

/-- A tick whose drain takes two errors of the notification source and no event. -/
def errorsOnlyTick : Tick :=
  { received := [.Error "inotify: event queue overflow", .Error "read: bad descriptor"],
    launch :=
      { now := "01 Nov 26 12:00:03", lookPath := some "/usr/local/go/bin/go", started := some 4243 } }

/-- A tick whose drain takes the single modification of `foo.txt`. -/
def oneEventTick : Tick :=
  { received := [.Event (Modified "foo.txt") (.info false)],
    launch :=
      { now := "01 Nov 26 12:00:03", lookPath := some "/usr/local/go/bin/go", started := some 4243 } }

/-- A burst of `n` modifications of `foo.txt`. -/
def burst (n : Nat) : List Received :=
  List.replicate n (.Event (Modified "foo.txt") (.info false))

/-! ## Lemmas on traces -/

theorem killsOf_append (a b : List Effect) : killsOf (a ++ b) = killsOf a ++ killsOf b := by
  induction a with
  | nil => rfl
  | cons x xs ih => cases x <;> simp [killsOf, ih]

theorem startsOf_append (a b : List Effect) : startsOf (a ++ b) = startsOf a ++ startsOf b := by
  induction a with
  | nil => rfl
  | cons x xs ih => cases x <;> simp [startsOf, ih]

theorem killsOf_quiet (a : List Effect) (h : ∀ e ∈ a, e.isRestart = false) : killsOf a = [] := by
  induction a with
  | nil => rfl
  | cons x xs ih =>
    have hx := h x (List.mem_cons_self _ _)
    have hxs := ih (fun e he => h e (List.mem_cons_of_mem _ he))
    cases x <;> simp_all [killsOf, Effect.isRestart]

theorem startsOf_quiet (a : List Effect) (h : ∀ e ∈ a, e.isRestart = false) : startsOf a = [] := by
  induction a with
  | nil => rfl
  | cons x xs ih =>
    have hx := h x (List.mem_cons_self _ _)
    have hxs := ih (fun e he => h e (List.mem_cons_of_mem _ he))
    cases x <;> simp_all [startsOf, Effect.isRestart]

/-! ## Lemmas on the drain -/

theorem Quiet.refl (s : State) : Quiet s s :=
  ⟨rfl, rfl, rfl, rfl, [], by simp, by simp⟩

theorem Quiet.trans {a b c : State} (h1 : Quiet a b) (h2 : Quiet b c) : Quiet a c := by
  obtain ⟨c1, f1, o1, n1, x, tx, qx⟩ := h1
  obtain ⟨c2, f2, o2, n2, y, ty, qy⟩ := h2
  refine ⟨c2.trans c1, f2.trans f1, o2.trans o1, n2.trans n1, x ++ y, ?_, ?_⟩
  · rw [ty, tx, List.append_assoc]
  · intro e he
    rcases List.mem_append.mp he with h | h
    · exact qx e h
    · exact qy e h

theorem Quiet.emit (s : State) (e : Effect) (h : e.isRestart = false) : Quiet s (s.emit e) :=
  ⟨rfl, rfl, rfl, rfl, [e], rfl, by simpa using h⟩

theorem watchDir_quiet (s : State) (p : String) : Quiet s (watchDir s p) :=
  ⟨rfl, rfl, rfl, rfl, [.Watch p], rfl, by simp [Effect.isRestart]⟩

theorem unwatch_quiet (s : State) (p : String) : Quiet s (unwatch s p) :=
  ⟨rfl, rfl, rfl, rfl, [.RemoveWatch p], rfl, by simp [Effect.isRestart]⟩

theorem watchIfDir_quiet (s : State) (p : String) (st : StatResult) :
    Quiet s (watchIfDir s p st) := by
  cases st with
  | err msg =>
    simp only [watchIfDir]
    split
    · exact Quiet.emit s _ rfl
    · exact Quiet.refl s
  | info d =>
    simp only [watchIfDir]
    split
    · exact watchDir_quiet s p
    · exact Quiet.refl s

theorem handleEvent_quiet (s : State) (e : FileEvent) (st : StatResult) :
    Quiet s (handleEvent s e st) := by
  unfold handleEvent
  split_ifs
  · exact watchIfDir_quiet s _ st
  · exact unwatch_quiet s _
  · exact Quiet.refl s
  · exact unwatch_quiet s _
  · exact watchIfDir_quiet s _ st
  · exact Quiet.refl s

theorem drainLoop_quiet (items : List Received) (s : State) (c : Nat) :
    Quiet s (drainLoop s c items).1 := by
  induction items generalizing s c with
  | nil => exact Quiet.refl s
  | cons x xs ih =>
    cases x with
    | Event e st => exact (handleEvent_quiet s e st).trans (ih _ _)
    | Error err => exact (Quiet.emit s (.Println ["Error: ", err]) rfl).trans (ih _ _)

theorem drainLoop_count (items : List Received) (s : State) (c : Nat) :
    (drainLoop s c items).2 = c + numEvents items := by
  induction items generalizing s c with
  | nil => rfl
  | cons x xs ih =>
    cases x with
    | Event e st => simp only [drainLoop, numEvents, ih]; omega
    | Error err => simp only [drainLoop, numEvents, ih]

theorem drainLoop_state (items : List Received) (s : State) (c : Nat) :
    (drainLoop s c items).1 = (drainLoop s 0 items).1 := by
  induction items generalizing s c with
  | nil => rfl
  | cons x xs ih =>
    cases x with
    | Event e st => simp only [drainLoop]; rw [ih _ (c + 1), ih _ (0 + 1)]
    | Error err => simp only [drainLoop]; rw [ih _ c]

theorem drain_count (s : State) (items : List Received) :
    (drain s items).2 = numEvents items := by
  simp [drain, drainLoop_count]

theorem drain_quiet (s : State) (items : List Received) : Quiet s (drain s items).1 :=
  drainLoop_quiet items s 0

theorem drainLoop_append (a b : List Received) (s : State) (c d : Nat) :
    (drainLoop s c (a ++ b)).1 = (drainLoop (drainLoop s c a).1 d b).1 := by
  induction a generalizing s c with
  | nil =>
    simp only [List.nil_append, drainLoop]
    rw [drainLoop_state b s c, drainLoop_state b s d]
  | cons x xs ih =>
    cases x with
    | Event e st => simp only [List.cons_append, drainLoop]; exact ih _ _
    | Error err => simp only [List.cons_append, drainLoop]; exact ih _ _

theorem drain_append (s : State) (a b : List Received) :
    (drain s (a ++ b)).1 = (drain (drain s a).1 b).1 :=
  drainLoop_append a b s 0 0

/-! ## Lemmas on a tick -/

theorem Quiet.effectsSince {s s1 : State} (h : Quiet s s1) :
    s.world.trace <+: s1.world.trace ∧ ∀ e ∈ effectsSince s s1, e.isRestart = false := by
  obtain ⟨_, _, _, _, added, ht, hq⟩ := h
  refine ⟨⟨added, ht.symm⟩, ?_⟩
  unfold Goreload.effectsSince
  rw [ht, List.drop_left]
  exact hq

theorem Quiet.killsOf {s s1 : State} (h : Quiet s s1) :
    killsOf s1.world.trace = killsOf s.world.trace := by
  obtain ⟨_, _, _, _, added, ht, hq⟩ := h
  rw [ht, killsOf_append, killsOf_quiet added hq, List.append_nil]

theorem Quiet.startsOf {s s1 : State} (h : Quiet s s1) :
    startsOf s1.world.trace = startsOf s.world.trace := by
  obtain ⟨_, _, _, _, added, ht, hq⟩ := h
  rw [ht, startsOf_append, startsOf_quiet added hq, List.append_nil]

theorem tick_of_no_event (s : State) (t : Tick) (h : numEvents t.received = 0) :
    tick s t = .running (drain s t.received).1 := by
  simp [tick, drain_count, h]

theorem tick_of_event (s : State) (t : Tick) (h : 1 ≤ numEvents t.received) :
    tick s t = restart (drain s t.received).1 t.launch := by
  have h0 : numEvents t.received ≠ 0 := by omega
  simp [tick, drain_count, h0]

theorem restart_of_process (s : State) (l : Launch) (pid : Nat)
    (h : s.cmd.Process = some pid) :
    restart s l = .running (relaunch (s.emit (.Kill s.cmd)) l) := by
  simp [restart, h]

theorem restart_of_nil (s : State) (l : Launch) (h : s.cmd.Process = none) :
    restart s l = .panicked s := by
  simp [restart, h]

theorem makeRun_cmd (files : List String) (l : Launch) (w : World) :
    (makeRun files l w).1 =
      { id := w.nextId, Path := l.lookPath.getD "go", Args := "go" :: "run" :: files,
        Stdin := some .osStdin, Stdout := some .osStdout, Stderr := some .osStderr,
        lookPathErr := l.lookPath.isNone, Process := l.process } := by
  cases h : l.lookPath <;> simp [makeRun, Command, Start, World.emit, Launch.process, h]

theorem makeRun_world (files : List String) (l : Launch) (w : World) :
    (makeRun files l w).2 =
      { nextId := w.nextId + 1,
        trace := w.trace ++
          [.Printf "Running [%s]...\n" [l.now], .Start (makeRun files l w).1] } := by
  simp [makeRun, World.emit]

theorem relaunch_cmd (s : State) (l : Launch) :
    (relaunch s l).cmd = (makeRun s.files l s.world).1 := rfl

theorem relaunch_trace (s : State) (l : Launch) :
    (relaunch s l).world.trace =
      s.world.trace ++ [.Printf "Running [%s]...\n" [l.now], .Start (relaunch s l).cmd] := by
  simp [relaunch, run, makeRun_world]

theorem relaunch_nextId (s : State) (l : Launch) :
    (relaunch s l).world.nextId = s.world.nextId + 1 := by
  simp [relaunch, run, makeRun_world]

theorem relaunch_watchedDirs (s : State) (l : Launch) :
    (relaunch s l).watchedDirs = s.watchedDirs := rfl

theorem relaunch_files (s : State) (l : Launch) : (relaunch s l).files = s.files := rfl

theorem relaunch_process (s : State) (l : Launch) :
    (relaunch s l).cmd.Process = l.process := by
  rw [relaunch_cmd, makeRun_cmd]

/-- Exactly one restart on a live child: a tick that drains at least one event while
the current handle carries a process keeps running, kills that handle once, then
launches once, and the launched handle becomes the current one. -/
theorem tick_restarts_live_child (s : State) (t : Tick) (pid : Nat)
    (hp : s.cmd.Process = some pid) (hn : 1 ≤ numEvents t.received) :
    tick s t = .running (tick s t).state ∧
    (tick s t).state.world.trace =
      (drain s t.received).1.world.trace ++
        [.Kill s.cmd, .Printf "Running [%s]...\n" [t.launch.now],
          .Start (tick s t).state.cmd] ∧
    killsOf (tick s t).state.world.trace = killsOf s.world.trace ++ [s.cmd] ∧
    startsOf (tick s t).state.world.trace =
      startsOf s.world.trace ++ [(tick s t).state.cmd] ∧
    (tick s t).state.cmd.id = s.world.nextId ∧
    (tick s t).state.cmd.Process = t.launch.process ∧
    (tick s t).state.cmd.Args = "go" :: "run" :: s.files ∧
    (tick s t).state.cmd.Path = t.launch.lookPath.getD "go" ∧
    (tick s t).state.watchedDirs = (drain s t.received).1.watchedDirs := by
  have hq := drain_quiet s t.received
  have hk := hq.killsOf
  have hs := hq.startsOf
  obtain ⟨hc, hf, _, hid, _⟩ := hq
  have hp1 : (drain s t.received).1.cmd.Process = some pid := by rw [hc, hp]
  rw [tick_of_event s t hn, restart_of_process _ _ pid hp1]
  simp only [Outcome.state]
  refine ⟨trivial, ?_, ?_, ?_, ?_, ?_, ?_, ?_, ?_⟩
  · rw [relaunch_trace]
    simp [State.emit, World.emit, hc]
  · rw [relaunch_trace]
    simp [State.emit, World.emit, hc, killsOf_append, killsOf, hk]
  · rw [relaunch_trace]
    simp [State.emit, World.emit, hc, startsOf_append, startsOf, hs]
  · rw [relaunch_cmd, makeRun_cmd]
    simp [State.emit, World.emit, hid]
  · exact relaunch_process _ _
  · rw [relaunch_cmd, makeRun_cmd]
    simp [State.emit, hf]
  · rw [relaunch_cmd, makeRun_cmd]
  · rfl

theorem drainLoop_burst (n : Nat) (s : State) (c : Nat) :
    drainLoop s c (burst n) = (s, c + n) := by
  induction n generalizing c with
  | zero => rfl
  | succ k ih =>
    simp only [burst, List.replicate_succ, drainLoop]
    have h : handleEvent s (Modified "foo.txt") (.info false) = s := by
      simp [handleEvent, Modified]
    rw [h]
    have := ih (c + 1)
    simp only [burst] at this
    rw [this]
    congr 1
    omega

/-! ## Lemmas on the watched set -/

theorem watchesOf_append (a b : List Effect) :
    watchesOf (a ++ b) = watchesOf a ++ watchesOf b := by
  induction a with
  | nil => rfl
  | cons x xs ih => cases x <;> simp [watchesOf, ih]

theorem handleEvent_dir (s : State) (ev : DirEvent) :
    (handleEvent s ev.toFileEvent (.info true)).watchedDirs = refStep s.watchedDirs ev := by
  cases ev with
  | Created p => simp [handleEvent, DirEvent.toFileEvent, watchIfDir, watchDir, State.emit, refStep]
  | Deleted p =>
    by_cases h : p ∈ s.watchedDirs
    · simp [handleEvent, DirEvent.toFileEvent, unwatch, State.emit, refStep, h]
    · simp [handleEvent, DirEvent.toFileEvent, refStep, h]
  | Renamed p =>
    by_cases h : p ∈ s.watchedDirs
    · simp [handleEvent, DirEvent.toFileEvent, unwatch, State.emit, refStep, h]
    · simp [handleEvent, DirEvent.toFileEvent, watchIfDir, watchDir, State.emit, refStep, h]

theorem drainLoop_dir (evs : List DirEvent) (s : State) (c : Nat) :
    (drainLoop s c (evs.map DirEvent.received)).1.watchedDirs =
      evs.foldl refStep s.watchedDirs := by
  induction evs generalizing s c with
  | nil => rfl
  | cons ev rest ih =>
    simp only [List.map_cons, DirEvent.received, drainLoop, List.foldl_cons]
    have := ih (handleEvent s ev.toFileEvent (.info true)) (c + 1)
    simp only [DirEvent.received] at this
    rw [this, handleEvent_dir]

theorem numEvents_dir (evs : List DirEvent) :
    numEvents (evs.map DirEvent.received) = evs.length := by
  induction evs with
  | nil => rfl
  | cons ev rest ih => simp [DirEvent.received, numEvents, ih]

theorem tick_watchedDirs (s : State) (t : Tick) :
    (tick s t).state.watchedDirs = (drain s t.received).1.watchedDirs := by
  by_cases h0 : numEvents t.received = 0
  · rw [tick_of_no_event s t h0]
    rfl
  · have h1 : 1 ≤ numEvents t.received := by omega
    rw [tick_of_event s t h1]
    cases hp : (drain s t.received).1.cmd.Process with
    | none => rw [restart_of_nil _ _ hp]; rfl
    | some pid => rw [restart_of_process _ _ pid hp]; rfl

theorem tick_dir_watchedDirs (s : State) (evs : List DirEvent) (l : Launch) :
    (tick s ⟨evs.map DirEvent.received, l⟩).state.watchedDirs =
      evs.foldl refStep s.watchedDirs := by
  rw [tick_watchedDirs]
  exact drainLoop_dir evs s 0

/-- In every run, however the events are cut into ticks and whatever the launches
meet, the watched set is the fold of the reference step over the events of the ticks
whose drain took place. -/
theorem processChanges_dir_drained (chunks : List (List DirEvent × Launch)) (s : State) :
    (processChanges s (dirTicks chunks)).state.watchedDirs =
      ((chunks.take (ticksDrained s (dirTicks chunks))).map Prod.fst).flatten.foldl
        refStep s.watchedDirs := by
  induction chunks generalizing s with
  | nil => rfl
  | cons c rest ih =>
    have hw := tick_dir_watchedDirs s c.1 c.2
    simp only [dirTicks, List.map_cons, processChanges, ticksDrained]
    cases hk : tick s ⟨c.1.map DirEvent.received, c.2⟩ with
    | running s1 =>
      rw [hk] at hw
      simp only [Outcome.state] at hw
      simp only [List.take_succ_cons, List.map_cons, List.flatten_cons, List.foldl_append]
      rw [← hw]
      exact ih s1
    | panicked s1 =>
      rw [hk] at hw
      simp only [Outcome.state] at hw
      simp only [List.take_succ_cons, List.take_zero, List.map_cons, List.map_nil,
        List.flatten_cons, List.flatten_nil, List.append_nil, Outcome.state]
      exact hw

theorem ticksDrained_of_running (ticks : List Tick) (s s1 : State)
    (h : processChanges s ticks = .running s1) : ticksDrained s ticks = ticks.length := by
  induction ticks generalizing s with
  | nil => rfl
  | cons t ts ih =>
    simp only [processChanges] at h
    simp only [ticksDrained, List.length_cons]
    cases hk : tick s t with
    | running s2 =>
      rw [hk] at h
      simp only [] at h ⊢
      rw [ih s2 h]
    | panicked s2 =>
      rw [hk] at h
      simp at h

theorem tick_dir (s : State) (evs : List DirEvent) (l : Launch) (pid : Nat)
    (hp : s.cmd.Process = some pid) (hl : l.process ≠ none) :
    tick s ⟨evs.map DirEvent.received, l⟩ =
      .running (tick s ⟨evs.map DirEvent.received, l⟩).state ∧
    (tick s ⟨evs.map DirEvent.received, l⟩).state.cmd.Process ≠ none := by
  by_cases h0 : numEvents (evs.map DirEvent.received) = 0
  · rw [tick_of_no_event s _ h0]
    refine ⟨rfl, ?_⟩
    simp [Outcome.state, (drain_quiet s (evs.map DirEvent.received)).1, hp]
  · have h1 : 1 ≤ numEvents (evs.map DirEvent.received) := by omega
    obtain ⟨hr, _, _, _, _, hproc, _⟩ :=
      tick_restarts_live_child s ⟨evs.map DirEvent.received, l⟩ pid hp h1
    refine ⟨hr, ?_⟩
    rw [hproc]; exact hl

theorem processChanges_dir_running (chunks : List (List DirEvent × Launch)) (s : State)
    (pid : Nat) (hp : s.cmd.Process = some pid) (hl : ∀ c ∈ chunks, c.2.process ≠ none) :
    processChanges s (dirTicks chunks) =
      .running (processChanges s (dirTicks chunks)).state := by
  induction chunks generalizing s pid with
  | nil => rfl
  | cons c rest ih =>
    obtain ⟨hr, hproc⟩ := tick_dir s c.1 c.2 pid hp (hl c (List.mem_cons_self _ _))
    obtain ⟨pid1, hpid1⟩ := Option.ne_none_iff_exists'.mp hproc
    have ih1 := ih (tick s ⟨c.1.map DirEvent.received, c.2⟩).state pid1 hpid1
      (fun d hd => hl d (List.mem_cons_of_mem _ hd))
    simp only [dirTicks, List.map_cons, processChanges]
    rw [hr]
    exact ih1

theorem handleEvent_mem_other (s : State) (e : FileEvent) (st : StatResult) (p : String)
    (h : e.Name ≠ p) :
    p ∈ (handleEvent s e st).watchedDirs ↔ p ∈ s.watchedDirs := by
  have hne : p ≠ e.Name := fun h1 => h h1.symm
  unfold handleEvent
  split_ifs <;> cases st <;>
    simp [watchIfDir, watchDir, unwatch, State.emit, hne] <;>
    split_ifs <;> simp [watchDir, State.emit, hne]

theorem handleEvent_deleted (s : State) (e : FileEvent) (st : StatResult)
    (h : e.isDeleted = true) : e.Name ∉ (handleEvent s e st).watchedDirs := by
  simp only [FileEvent.isDeleted, Bool.and_eq_true, Bool.not_eq_true'] at h
  by_cases hm : e.Name ∈ s.watchedDirs
  · simp [handleEvent, h.1, h.2, hm, unwatch, State.emit]
  · simp [handleEvent, h.1, h.2, hm]

theorem eventsNaming_name (p : String) (items : List Received) :
    ∀ e ∈ eventsNaming p items, e.Name = p := by
  induction items with
  | nil => simp [eventsNaming]
  | cons x xs ih =>
    cases x with
    | Event e st =>
      simp only [eventsNaming]
      split_ifs with h
      · intro e1 he1
        rcases List.mem_cons.mp he1 with h1 | h1
        · rw [h1]; exact h
        · exact ih e1 h1
      · exact ih
    | Error err => simpa [eventsNaming] using ih

theorem drainLoop_mem_unnamed (p : String) (items : List Received) (s : State) (c : Nat)
    (h : eventsNaming p items = []) :
    p ∈ (drainLoop s c items).1.watchedDirs ↔ p ∈ s.watchedDirs := by
  induction items generalizing s c with
  | nil => rfl
  | cons x xs ih =>
    cases x with
    | Event e st =>
      simp only [eventsNaming] at h
      split_ifs at h with hn
      simp only [drainLoop]
      rw [ih _ _ h, handleEvent_mem_other s e st p hn]
    | Error err =>
      simp only [eventsNaming] at h
      simp only [drainLoop]
      rw [ih _ _ h]
      rfl

theorem drainLoop_last_deleted (p : String) (items : List Received) (s : State) (c : Nat)
    (e : FileEvent) (hlast : (eventsNaming p items).getLast? = some e)
    (hdel : e.isDeleted = true) :
    p ∉ (drainLoop s c items).1.watchedDirs := by
  induction items generalizing s c with
  | nil => simp [eventsNaming] at hlast
  | cons x xs ih =>
    cases x with
    | Event e1 st =>
      simp only [drainLoop]
      by_cases hrest : eventsNaming p xs = []
      · rw [drainLoop_mem_unnamed p xs _ _ hrest]
        simp only [eventsNaming, hrest] at hlast
        split_ifs at hlast with hn
        · simp only [List.getLast?_singleton, Option.some.injEq] at hlast
          subst hlast
          rw [← hn]
          exact handleEvent_deleted s e1 st hdel
        · simp at hlast
      · apply ih
        simp only [eventsNaming] at hlast
        split_ifs at hlast with hn
        · obtain ⟨y, ys, hy⟩ := List.exists_cons_of_ne_nil hrest
          rw [hy] at hlast ⊢
          rwa [List.getLast?_cons_cons] at hlast
        · exact hlast
    | Error err =>
      simp only [drainLoop]
      apply ih
      simpa [eventsNaming] using hlast

/-! ## The claims -/

/-- C1 (evaluation at the input where the code departs from the claim): when the
current handle carries no process, because the `Start` of the last `run()` failed, a
tick that drains a burst of `n + 1 ≥ 1` events performs no restart.  The call
`cmd.Process.Kill()` goes through the nil `Process` and panics: the loop stops, no
process is killed, `run()` is not called and the current handle stays the old one.
The count is the same for one event and for a thousand, but it is zero, not one. -/
theorem tick_on_failed_launch_performs_no_restart (n : Nat) (l : Launch) :
    tick failedLaunchState ⟨burst (n + 1), l⟩ = .panicked failedLaunchState ∧
    killsOf (tick failedLaunchState ⟨burst (n + 1), l⟩).state.world.trace = [] ∧
    startsOf (tick failedLaunchState ⟨burst (n + 1), l⟩).state.world.trace = [] ∧
    (tick failedLaunchState ⟨burst (n + 1), l⟩).state.cmd = failedLaunchState.cmd ∧
    numEvents (burst (n + 1)) = n + 1 := by
  have hd : drain failedLaunchState (burst (n + 1)) = (failedLaunchState, n + 1) := by
    simp [drain, drainLoop_burst]
  have ht : tick failedLaunchState ⟨burst (n + 1), l⟩ = .panicked failedLaunchState := by
    have h0 : ((n + 1 == 0) = true) = False := by simp
    simp only [tick, hd, h0, if_false]
    exact restart_of_nil failedLaunchState l rfl
  have hc : numEvents (burst (n + 1)) = n + 1 := by
    have := drain_count failedLaunchState (burst (n + 1))
    rw [hd] at this
    exact this.symm
  rw [ht]
  exact ⟨rfl, rfl, rfl, rfl, hc⟩

/-- C2: a tick whose drain takes no event from `fileWatcher.Event` (nothing at all, or
only errors of the source) does not restart: the loop keeps running with the state the
drain left, `cmd` is the very handle it was, no kill and no launch is added to the
trace, no handle is allocated, and the effects the tick adds contain nothing of a
restart.  Source errors never count: a drain of errors only ends with `count = 0`. -/
theorem tick_without_event_keeps_child (s : State) (t : Tick)
    (h : numEvents t.received = 0) :
    tick s t = .running (drain s t.received).1 ∧
    (tick s t).state.cmd = s.cmd ∧
    killsOf (tick s t).state.world.trace = killsOf s.world.trace ∧
    startsOf (tick s t).state.world.trace = startsOf s.world.trace ∧
    (tick s t).state.world.nextId = s.world.nextId ∧
    s.world.trace <+: (tick s t).state.world.trace ∧
    (∀ e ∈ effectsSince s (tick s t).state, e.isRestart = false) ∧
    (∀ errs : List String, numEvents (errs.map Received.Error) = 0 ∧
      (drain s (errs.map Received.Error)).2 = 0) := by
  have hq := drain_quiet s t.received
  rw [tick_of_no_event s t h]
  refine ⟨rfl, hq.1, hq.killsOf, hq.startsOf, hq.2.2.2.1, hq.effectsSince.1,
    hq.effectsSince.2, ?_⟩
  intro errs
  have h0 : numEvents (errs.map Received.Error) = 0 := by
    induction errs with
    | nil => rfl
    | cons x xs ih => simpa [numEvents] using ih
  exact ⟨h0, by rw [drain_count, h0]⟩

/-- Witness of C2 at a tick that drains two source errors. -/
theorem tick_without_event_keeps_child_witness :
    numEvents errorsOnlyTick.received = 0 ∧
    (tick exampleState errorsOnlyTick =
        .running (drain exampleState errorsOnlyTick.received).1 ∧
      (tick exampleState errorsOnlyTick).state.cmd = exampleState.cmd ∧
      killsOf (tick exampleState errorsOnlyTick).state.world.trace =
        killsOf exampleState.world.trace ∧
      startsOf (tick exampleState errorsOnlyTick).state.world.trace =
        startsOf exampleState.world.trace ∧
      (tick exampleState errorsOnlyTick).state.world.nextId = exampleState.world.nextId ∧
      exampleState.world.trace <+: (tick exampleState errorsOnlyTick).state.world.trace ∧
      (∀ e ∈ effectsSince exampleState (tick exampleState errorsOnlyTick).state,
        e.isRestart = false) ∧
      (∀ errs : List String, numEvents (errs.map Received.Error) = 0 ∧
        (drain exampleState (errs.map Received.Error)).2 = 0)) :=
  ⟨by decide, tick_without_event_keeps_child exampleState errorsOnlyTick (by decide)⟩

/-- C6 (evaluation at the input where the code departs from the claim): in the state
left by `cmd = run()` when `cmd.Start()` failed, so that the handle carries no
process, the next tick that drains at least one event does not complete.  After the
drain `cmd.Process.Kill()` dereferences the nil `Process`; the panic ends the loop,
whatever ticks would follow, and `run()` is not called again: the trace holds no
launch beyond the failed one.  It is the same when the launch failed because `go` was
not found. -/
theorem tick_after_failed_launch_panics (s : State) (l0 : Launch) (e : FileEvent)
    (st : StatResult) (rest : List Received) (l : Launch) (more : List Tick) :
    (relaunch s { l0 with started := none }).cmd.Process = none ∧
    tick (relaunch s { l0 with started := none }) ⟨.Event e st :: rest, l⟩ =
      .panicked (drain (relaunch s { l0 with started := none }) (.Event e st :: rest)).1 ∧
    processChanges (relaunch s { l0 with started := none })
        (⟨.Event e st :: rest, l⟩ :: more) =
      .panicked (drain (relaunch s { l0 with started := none }) (.Event e st :: rest)).1 ∧
    startsOf (processChanges (relaunch s { l0 with started := none })
        (⟨.Event e st :: rest, l⟩ :: more)).state.world.trace =
      startsOf (relaunch s { l0 with started := none }).world.trace ∧
    killsOf (processChanges (relaunch s { l0 with started := none })
        (⟨.Event e st :: rest, l⟩ :: more)).state.world.trace =
      killsOf (relaunch s { l0 with started := none }).world.trace ∧
    (relaunch s { l0 with lookPath := none }).cmd.Process = none ∧
    processChanges (relaunch s { l0 with lookPath := none })
        (⟨.Event e st :: rest, l⟩ :: more) =
      .panicked (drain (relaunch s { l0 with lookPath := none }) (.Event e st :: rest)).1 := by
  have key : ∀ s0 : State, s0.cmd.Process = none →
      tick s0 ⟨.Event e st :: rest, l⟩ = .panicked (drain s0 (.Event e st :: rest)).1 ∧
      processChanges s0 (⟨.Event e st :: rest, l⟩ :: more) =
        .panicked (drain s0 (.Event e st :: rest)).1 := by
    intro s0 hnil
    have hq := drain_quiet s0 (.Event e st :: rest)
    have hn : 1 ≤ numEvents (.Event e st :: rest) := by simp [numEvents]
    have hd : (drain s0 (.Event e st :: rest)).1.cmd.Process = none := by
      rw [hq.1, hnil]
    have ht : tick s0 ⟨.Event e st :: rest, l⟩ =
        .panicked (drain s0 (.Event e st :: rest)).1 := by
      rw [tick_of_event _ _ hn]
      exact restart_of_nil _ _ hd
    exact ⟨ht, by simp [processChanges, ht]⟩
  have hnil1 : (relaunch s { l0 with started := none }).cmd.Process = none := by
    rw [relaunch_process]
    cases h : l0.lookPath <;> simp [Launch.process, h]
  have hnil2 : (relaunch s { l0 with lookPath := none }).cmd.Process = none := by
    rw [relaunch_process]
    rfl
  have hq := drain_quiet (relaunch s { l0 with started := none }) (.Event e st :: rest)
  obtain ⟨ht, hp⟩ := key _ hnil1
  refine ⟨hnil1, ht, hp, ?_, ?_, hnil2, (key _ hnil2).2⟩
  · rw [hp]; exact hq.startsOf
  · rw [hp]; exact hq.killsOf

/-- C3: for every finite sequence of Created, Deleted and Renamed events whose paths
stat as directories, the drain started on an empty `watchedDirs` ends with exactly the
set the reference step yields when folded over the sequence from the empty set.
However the sequence is cut into the drains of consecutive ticks, and whatever the
restarts in between meet, the watched set is the fold over the events of the ticks
whose drain took place; hence whenever the loop has gone through the ticks, it is the
fold over the whole sequence, the set a single drain gives.  (The loop does go through
them when the handle carries a process and each relaunch succeeds.) -/
theorem watched_set_refines_reference (s : State) (evs : List DirEvent)
    (chunks : List (List DirEvent × Launch)) (h0 : s.watchedDirs = ∅) :
    (drain s (evs.map DirEvent.received)).1.watchedDirs = evs.foldl refStep ∅ ∧
    (processChanges s (dirTicks chunks)).state.watchedDirs =
      ((chunks.take (ticksDrained s (dirTicks chunks))).map Prod.fst).flatten.foldl
        refStep ∅ ∧
    (∀ s1, processChanges s (dirTicks chunks) = .running s1 →
      s1.watchedDirs = (chunks.map Prod.fst).flatten.foldl refStep ∅ ∧
      s1.watchedDirs =
        (drain s ((chunks.map Prod.fst).flatten.map DirEvent.received)).1.watchedDirs) ∧
    (∀ pid, s.cmd.Process = some pid → (∀ c ∈ chunks, c.2.process ≠ none) →
      processChanges s (dirTicks chunks) =
        .running (processChanges s (dirTicks chunks)).state) := by
  have hd : ∀ l : List DirEvent,
      (drain s (l.map DirEvent.received)).1.watchedDirs = l.foldl refStep ∅ := by
    intro l
    have := drainLoop_dir l s 0
    rw [h0] at this
    exact this
  have hw := processChanges_dir_drained chunks s
  rw [h0] at hw
  refine ⟨hd evs, hw, ?_, fun pid hp hl => processChanges_dir_running chunks s pid hp hl⟩
  intro s1 hrun
  have hlen := ticksDrained_of_running (dirTicks chunks) s s1 hrun
  rw [hlen, hrun] at hw
  simp only [dirTicks, List.length_map, List.take_length, Outcome.state] at hw
  exact ⟨hw, by rw [hw, hd]⟩

/-- Witness of C3: five events, in one drain and split over three ticks. -/
theorem watched_set_refines_reference_witness :
    exampleState.watchedDirs = ∅ ∧
    ((drain exampleState (exampleDirEvents.map DirEvent.received)).1.watchedDirs =
        exampleDirEvents.foldl refStep ∅ ∧
      (processChanges exampleState (dirTicks exampleChunks)).state.watchedDirs =
        ((exampleChunks.take (ticksDrained exampleState (dirTicks exampleChunks))).map
          Prod.fst).flatten.foldl refStep ∅ ∧
      (∀ s1, processChanges exampleState (dirTicks exampleChunks) = .running s1 →
        s1.watchedDirs = (exampleChunks.map Prod.fst).flatten.foldl refStep ∅ ∧
        s1.watchedDirs =
          (drain exampleState
            ((exampleChunks.map Prod.fst).flatten.map DirEvent.received)).1.watchedDirs) ∧
      (∀ pid, exampleState.cmd.Process = some pid →
        (∀ c ∈ exampleChunks, c.2.process ≠ none) →
        processChanges exampleState (dirTicks exampleChunks) =
          .running (processChanges exampleState (dirTicks exampleChunks)).state)) :=
  ⟨by decide, watched_set_refines_reference exampleState exampleDirEvents exampleChunks
    (by decide)⟩

/-- C7: a Created event whose path fails to stat adds no entry to `watchedDirs` and
issues no subscribe request; it prints the diagnostic exactly when `options.Verbose`
is set and prints nothing otherwise; the drain goes on with the items that follow and
counts the event; a tick that drains only this event takes the restart branch, and on
a handle that carries a process this is one kill of the old handle followed by one
launch. -/
theorem created_stat_failure_still_counts (s : State) (e : FileEvent) (msg : String)
    (rest : List Received) (l : Launch) (hc : e.IsCreate = true) :
    (handleEvent s e (.err msg)).watchedDirs = s.watchedDirs ∧
    handleEvent s e (.err msg) = watchIfDir s e.Name (.err msg) ∧
    (watchIfDir s e.Name (.err msg)).world.trace =
      s.world.trace ++ (if s.options.Verbose then [.Println ["Error: ", msg]] else []) ∧
    watchesOf (handleEvent s e (.err msg)).world.trace = watchesOf s.world.trace ∧
    drain s (.Event e (.err msg) :: rest) = drainLoop (handleEvent s e (.err msg)) 1 rest ∧
    (drain s (.Event e (.err msg) :: rest)).2 = numEvents rest + 1 ∧
    tick s ⟨[.Event e (.err msg)], l⟩ = restart (handleEvent s e (.err msg)) l ∧
    (∀ pid, s.cmd.Process = some pid →
      tick s ⟨[.Event e (.err msg)], l⟩ = .running (tick s ⟨[.Event e (.err msg)], l⟩).state ∧
      killsOf (tick s ⟨[.Event e (.err msg)], l⟩).state.world.trace =
        killsOf s.world.trace ++ [s.cmd] ∧
      startsOf (tick s ⟨[.Event e (.err msg)], l⟩).state.world.trace =
        startsOf s.world.trace ++ [(tick s ⟨[.Event e (.err msg)], l⟩).state.cmd]) := by
  have hh : handleEvent s e (.err msg) = watchIfDir s e.Name (.err msg) := by
    simp [handleEvent, hc]
  have htr : (watchIfDir s e.Name (.err msg)).world.trace =
      s.world.trace ++ (if s.options.Verbose then [.Println ["Error: ", msg]] else []) := by
    by_cases hv : s.options.Verbose = true
    · simp [watchIfDir, hv, State.emit, World.emit]
    · simp [watchIfDir, hv]
  have hn : 1 ≤ numEvents [Received.Event e (.err msg)] := by simp [numEvents]
  refine ⟨?_, hh, htr, ?_, rfl, ?_, ?_, ?_⟩
  · rw [hh]
    by_cases hv : s.options.Verbose = true
    · simp [watchIfDir, hv, State.emit]
    · simp [watchIfDir, hv]
  · rw [hh, htr, watchesOf_append]
    by_cases hv : s.options.Verbose = true
    · simp [hv, watchesOf]
    · simp [hv, watchesOf]
  · rw [drain_count]
    simp [numEvents]
  · rw [tick_of_event s _ hn]
    rfl
  · intro pid hp
    obtain ⟨hr, _, hk, hs, _⟩ :=
      tick_restarts_live_child s ⟨[.Event e (.err msg)], l⟩ pid hp hn
    exact ⟨hr, hk, hs⟩

/-- Witness of C7: an editor's temporary file that is gone when it is stat'ed. -/
theorem created_stat_failure_still_counts_witness :
    tempCreated.IsCreate = true ∧
    ((handleEvent exampleState tempCreated (.err "no such file")).watchedDirs =
        exampleState.watchedDirs ∧
      handleEvent exampleState tempCreated (.err "no such file") =
        watchIfDir exampleState tempCreated.Name (.err "no such file") ∧
      (watchIfDir exampleState tempCreated.Name (.err "no such file")).world.trace =
        exampleState.world.trace ++
          (if exampleState.options.Verbose then [.Println ["Error: ", "no such file"]] else []) ∧
      watchesOf (handleEvent exampleState tempCreated (.err "no such file")).world.trace =
        watchesOf exampleState.world.trace ∧
      drain exampleState (.Event tempCreated (.err "no such file") :: burst 2) =
        drainLoop (handleEvent exampleState tempCreated (.err "no such file")) 1 (burst 2) ∧
      (drain exampleState (.Event tempCreated (.err "no such file") :: burst 2)).2 =
        numEvents (burst 2) + 1 ∧
      tick exampleState ⟨[.Event tempCreated (.err "no such file")], oneEventTick.launch⟩ =
        restart (handleEvent exampleState tempCreated (.err "no such file"))
          oneEventTick.launch ∧
      (∀ pid, exampleState.cmd.Process = some pid →
        tick exampleState ⟨[.Event tempCreated (.err "no such file")], oneEventTick.launch⟩ =
          .running (tick exampleState
            ⟨[.Event tempCreated (.err "no such file")], oneEventTick.launch⟩).state ∧
        killsOf (tick exampleState
            ⟨[.Event tempCreated (.err "no such file")], oneEventTick.launch⟩).state.world.trace =
          killsOf exampleState.world.trace ++ [exampleState.cmd] ∧
        startsOf (tick exampleState
            ⟨[.Event tempCreated (.err "no such file")], oneEventTick.launch⟩).state.world.trace =
          startsOf exampleState.world.trace ++
            [(tick exampleState
              ⟨[.Event tempCreated (.err "no such file")], oneEventTick.launch⟩).state.cmd])) :=
  ⟨by decide,
    created_stat_failure_still_counts exampleState tempCreated "no such file" (burst 2)
      oneEventTick.launch (by decide)⟩

/-- C9 (counterexample): with `sub` already in `watchedDirs`, `watchDir "sub"` does
not leave the sequence of subscribe requests unchanged: one more request is issued. -/
theorem watchDir_watched_resubscribes :
    "sub" ∈ watchingSubState.watchedDirs ∧
    watchesOf (watchDir watchingSubState "sub").world.trace ≠
      watchesOf watchingSubState.world.trace ∧
    watchesOf (watchDir watchingSubState "sub").world.trace = ["sub"] := by
  decide

/-- C9 (amended): for every `watchedDirs` containing `p`, `watchDir p`, and hence a
Created event for a directory `p` that is already watched, leaves the watched set
unchanged, with no duplicate entry (the number of entries is the same), and appends
exactly one subscribe request `Watch p` to the trace; `watchDir` issues a subscribe
request on every call, whether or not the path was already present. -/
theorem watchDir_watched_keeps_set (s : State) (p : String) (h : p ∈ s.watchedDirs) :
    (watchDir s p).watchedDirs = s.watchedDirs ∧
    (watchDir s p).watchedDirs.card = s.watchedDirs.card ∧
    (watchDir s p).world.trace = s.world.trace ++ [.Watch p] ∧
    watchesOf (watchDir s p).world.trace = watchesOf s.world.trace ++ [p] ∧
    (∀ e : FileEvent, e.IsCreate = true → e.Name = p →
      (handleEvent s e (.info true)).watchedDirs = s.watchedDirs ∧
      watchesOf (handleEvent s e (.info true)).world.trace = watchesOf s.world.trace ++ [p]) ∧
    (∀ q : String, watchesOf (watchDir s q).world.trace = watchesOf s.world.trace ++ [q]) := by
  have hset : (watchDir s p).watchedDirs = s.watchedDirs := by
    simp [watchDir, State.emit, Finset.insert_eq_of_mem h]
  have hw : ∀ q : String,
      watchesOf (watchDir s q).world.trace = watchesOf s.world.trace ++ [q] := by
    intro q
    simp [watchDir, State.emit, World.emit, watchesOf_append, watchesOf]
  refine ⟨hset, by rw [hset], rfl, hw p, ?_, hw⟩
  intro e hc hn
  have hh : handleEvent s e (.info true) = watchDir s p := by
    simp [handleEvent, hc, watchIfDir, hn]
  rw [hh]
  exact ⟨hset, hw p⟩

/-- Witness of C9 (amended): the directory `sub` is watched and created again. -/
theorem watchDir_watched_keeps_set_witness :
    "sub" ∈ watchingSubState.watchedDirs ∧
    ((watchDir watchingSubState "sub").watchedDirs = watchingSubState.watchedDirs ∧
      (watchDir watchingSubState "sub").watchedDirs.card = watchingSubState.watchedDirs.card ∧
      (watchDir watchingSubState "sub").world.trace =
        watchingSubState.world.trace ++ [.Watch "sub"] ∧
      watchesOf (watchDir watchingSubState "sub").world.trace =
        watchesOf watchingSubState.world.trace ++ ["sub"] ∧
      (∀ e : FileEvent, e.IsCreate = true → e.Name = "sub" →
        (handleEvent watchingSubState e (.info true)).watchedDirs =
          watchingSubState.watchedDirs ∧
        watchesOf (handleEvent watchingSubState e (.info true)).world.trace =
          watchesOf watchingSubState.world.trace ++ ["sub"]) ∧
      (∀ q : String, watchesOf (watchDir watchingSubState q).world.trace =
        watchesOf watchingSubState.world.trace ++ [q])) :=
  ⟨by decide, watchDir_watched_keeps_set watchingSubState "sub" (by decide)⟩

/-- C10: last write wins within a drain.  For every initial state, path `p` and
drained sequence, with whatever `os.Stat` answers at each event, in which the events
naming `p` are only Created or Deleted: if the last event naming `p` is Deleted, `p`
is not in `watchedDirs` after the drain; so if `p` is in it afterwards, the last event
naming `p` is Created.  In particular Created(sub), Deleted(sub) leaves `sub` out of
the watched set, counts two events and takes the restart branch once; on a handle that
carries a process this is one kill of the old handle followed by one launch. -/
theorem last_write_wins (s : State) (p : String) (items : List Received)
    (honly : ∀ e ∈ eventsNaming p items, e.isCreated = true ∨ e.isDeleted = true) :
    (∀ e, (eventsNaming p items).getLast? = some e → e.isDeleted = true →
      p ∉ (drain s items).1.watchedDirs) ∧
    (∀ e, (eventsNaming p items).getLast? = some e → p ∈ (drain s items).1.watchedDirs →
      e.isCreated = true) ∧
    (∀ (sub : String) (st1 st2 : StatResult) (l : Launch),
      sub ∉ (drain s (createdThenDeleted sub st1 st2)).1.watchedDirs ∧
      (drain s (createdThenDeleted sub st1 st2)).2 = 2 ∧
      tick s ⟨createdThenDeleted sub st1 st2, l⟩ =
        restart (drain s (createdThenDeleted sub st1 st2)).1 l ∧
      (∀ pid, s.cmd.Process = some pid →
        tick s ⟨createdThenDeleted sub st1 st2, l⟩ =
          .running (tick s ⟨createdThenDeleted sub st1 st2, l⟩).state ∧
        sub ∉ (tick s ⟨createdThenDeleted sub st1 st2, l⟩).state.watchedDirs ∧
        killsOf (tick s ⟨createdThenDeleted sub st1 st2, l⟩).state.world.trace =
          killsOf s.world.trace ++ [s.cmd] ∧
        startsOf (tick s ⟨createdThenDeleted sub st1 st2, l⟩).state.world.trace =
          startsOf s.world.trace ++
            [(tick s ⟨createdThenDeleted sub st1 st2, l⟩).state.cmd])) := by
  have hdel : ∀ (q : String) (l : List Received) (e : FileEvent),
      (eventsNaming q l).getLast? = some e → e.isDeleted = true →
      q ∉ (drain s l).1.watchedDirs :=
    fun q l e h1 h2 => drainLoop_last_deleted q l s 0 e h1 h2
  refine ⟨hdel p items, ?_, ?_⟩
  · intro e hlast hmem
    rcases honly e (List.mem_of_getLast?_eq_some hlast) with hc | hd
    · exact hc
    · exact absurd hmem (hdel p items e hlast hd)
  · intro sub st1 st2 l
    have hout : sub ∉ (drain s (createdThenDeleted sub st1 st2)).1.watchedDirs := by
      apply hdel sub _ (DirEvent.Deleted sub).toFileEvent
      · simp [createdThenDeleted, eventsNaming, DirEvent.toFileEvent]
      · rfl
    have hn : numEvents (createdThenDeleted sub st1 st2) = 2 := rfl
    have h1 : 1 ≤ numEvents (createdThenDeleted sub st1 st2) := by omega
    refine ⟨hout, by rw [drain_count, hn], tick_of_event s ⟨_, l⟩ h1, ?_⟩
    intro pid hp
    obtain ⟨hr, _, hk, hs, _, _, _, _, hw⟩ :=
      tick_restarts_live_child s ⟨createdThenDeleted sub st1 st2, l⟩ pid hp h1
    refine ⟨hr, ?_, hk, hs⟩
    rw [hw]
    exact hout

/-- Witness of C10: `sub` is created, another path is renamed, `sub` is deleted. -/
theorem last_write_wins_witness :
    (∀ e ∈ eventsNaming "sub" exampleDrain, e.isCreated = true ∨ e.isDeleted = true) ∧
    ((∀ e, (eventsNaming "sub" exampleDrain).getLast? = some e → e.isDeleted = true →
        "sub" ∉ (drain exampleState exampleDrain).1.watchedDirs) ∧
      (∀ e, (eventsNaming "sub" exampleDrain).getLast? = some e →
        "sub" ∈ (drain exampleState exampleDrain).1.watchedDirs → e.isCreated = true) ∧
      (∀ (sub : String) (st1 st2 : StatResult) (l : Launch),
        sub ∉ (drain exampleState (createdThenDeleted sub st1 st2)).1.watchedDirs ∧
        (drain exampleState (createdThenDeleted sub st1 st2)).2 = 2 ∧
        tick exampleState ⟨createdThenDeleted sub st1 st2, l⟩ =
          restart (drain exampleState (createdThenDeleted sub st1 st2)).1 l ∧
        (∀ pid, exampleState.cmd.Process = some pid →
          tick exampleState ⟨createdThenDeleted sub st1 st2, l⟩ =
            .running (tick exampleState ⟨createdThenDeleted sub st1 st2, l⟩).state ∧
          sub ∉ (tick exampleState ⟨createdThenDeleted sub st1 st2, l⟩).state.watchedDirs ∧
          killsOf (tick exampleState ⟨createdThenDeleted sub st1 st2, l⟩).state.world.trace =
            killsOf exampleState.world.trace ++ [exampleState.cmd] ∧
          startsOf (tick exampleState ⟨createdThenDeleted sub st1 st2, l⟩).state.world.trace =
            startsOf exampleState.world.trace ++
              [(tick exampleState ⟨createdThenDeleted sub st1 st2, l⟩).state.cmd]))) :=
  ⟨by decide, last_write_wins exampleState "sub" exampleDrain (by decide)⟩

/-! ## Lemmas on start-up -/

theorem flagLoop_files (k i : Nat) (o : Options) (idx : Nat) (f : String)
    (rest : List String) (hf : f ≠ "-v") :
    flagLoop (List.replicate k "-v" ++ f :: rest) i o idx =
      (if k = 0 then o else { Verbose := true }, i + k) := by
  induction k generalizing i o with
  | zero => simp [flagLoop, hf]
  | succ n ih =>
    simp only [List.replicate_succ, List.cons_append, flagLoop, if_true, List.append_eq]
    rw [ih]
    have : i + 1 + n = i + (n + 1) := by omega
    rw [this]
    by_cases hn : n = 0 <;> simp [hn]

theorem flagLoop_flags_only (k i : Nat) (o : Options) (idx : Nat) :
    flagLoop (List.replicate k "-v") i o idx =
      (if k = 0 then o else { Verbose := true }, idx) := by
  induction k generalizing i o with
  | zero => simp [flagLoop]
  | succ n ih =>
    simp only [List.replicate_succ, flagLoop, if_true]
    rw [ih]
    by_cases hn : n = 0 <;> simp [hn]

theorem main_of_files (prog : String) (k : Nat) (f : String) (rest : List String)
    (env : MainEnv) (hf : f ≠ "-v") :
    main (prog :: (List.replicate k "-v" ++ f :: rest)) env =
      launchAndWatch (if k = 0 then { Verbose := false } else { Verbose := true })
        (f :: rest) env := by
  have hdrop : List.drop (1 + k) (prog :: (List.replicate k "-v" ++ f :: rest)) = f :: rest := by
    rw [Nat.add_comm, List.drop_succ_cons]
    exact List.drop_left' (by simp)
  have hlen : (prog :: (List.replicate k "-v" ++ f :: rest)).length = k + rest.length + 2 := by
    simp; omega
  have h1 : ¬ (k + rest.length + 2 = 1) := by omega
  have h2 : ¬ (1 + k = k + rest.length + 2) := by omega
  simp only [main, hlen, h1, if_false, List.drop_succ_cons, List.drop_zero,
    flagLoop_files k 1 _ 0 f rest hf, h2, hdrop]

theorem main_of_flags_only (prog : String) (k : Nat) (env : MainEnv) :
    main (prog :: List.replicate (k + 1) "-v") env =
      launchAndWatch { Verbose := true } (prog :: List.replicate (k + 1) "-v") env := by
  have hlen : (prog :: List.replicate (k + 1) "-v").length = k + 2 := by simp
  have h1 : ¬ (k + 2 = 1) := by omega
  have h2 : ¬ (0 = k + 2) := by omega
  simp only [main, hlen, h1, if_false, List.drop_succ_cons, List.drop_zero,
    flagLoop_flags_only (k + 1) 1 _ 0, h2]
  simp

theorem Walk_cases (entries : List WalkEntry) (s : State) :
    Walk entries s = .returned (Walk entries s).state none ∨
      Walk entries s = .panicked (Walk entries s).state := by
  induction entries generalizing s with
  | nil => exact Or.inl rfl
  | cons x xs ih =>
    cases hx : x.info with
    | none => exact Or.inr (by simp [Walk, visit, hx, WalkOutcome.state])
    | some d =>
      have h : Walk (x :: xs) s = Walk xs (if d = true then watchDir s x.path else s) := by
        simp [Walk, visit, hx]
      rw [h]
      exact ih _

/-- The walk never returns an error to `main`: its callback returns `nil` on every
entry. -/
theorem Walk_returns_nil (entries : List WalkEntry) (s s1 : State) (e : String) :
    Walk entries s ≠ .returned s1 (some e) := by
  intro h
  rcases Walk_cases entries s with h1 | h1
  · rw [h1] at h
    simp at h
  · rw [h1] at h
    simp at h

theorem Walk_of_info (entries : List WalkEntry) (s : State)
    (h : ∀ x ∈ entries, x.info ≠ none) :
    Walk entries s = .returned (Walk entries s).state none := by
  induction entries generalizing s with
  | nil => rfl
  | cons x xs ih =>
    cases hx : x.info with
    | none => exact absurd hx (h x (List.mem_cons_self _ _))
    | some d =>
      have h1 : Walk (x :: xs) s = Walk xs (if d = true then watchDir s x.path else s) := by
        simp [Walk, visit, hx]
      rw [h1]
      exact ih _ (fun y hy => h y (List.mem_cons_of_mem _ hy))

theorem Walk_trace (entries : List WalkEntry) (s : State) :
    (Walk entries s).state.world.trace = s.world.trace ++ walkWatches entries := by
  induction entries generalizing s with
  | nil => simp [Walk, WalkOutcome.state, walkWatches]
  | cons x xs ih =>
    cases hx : x.info with
    | none => simp [Walk, visit, hx, WalkOutcome.state, walkWatches]
    | some d =>
      have h1 : Walk (x :: xs) s = Walk xs (if d = true then watchDir s x.path else s) := by
        simp [Walk, visit, hx]
      rw [h1, ih]
      cases d <;> simp [walkWatches, hx, watchDir, State.emit, World.emit]

theorem Walk_files (entries : List WalkEntry) (s : State) :
    (Walk entries s).state.files = s.files := by
  induction entries generalizing s with
  | nil => rfl
  | cons x xs ih =>
    cases hx : x.info with
    | none => simp [Walk, visit, hx, WalkOutcome.state]
    | some d =>
      have h1 : Walk (x :: xs) s = Walk xs (if d = true then watchDir s x.path else s) := by
        simp [Walk, visit, hx]
      rw [h1, ih]
      cases d <;> simp [watchDir, State.emit]

theorem startsOf_walkWatches (entries : List WalkEntry) : startsOf (walkWatches entries) = [] := by
  induction entries with
  | nil => rfl
  | cons x xs ih =>
    cases hx : x.info with
    | none => simp [walkWatches, hx, startsOf]
    | some d => cases d <;> simp [walkWatches, hx, startsOf, ih]

theorem mem_walkWatches (entries : List WalkEntry) (e : Effect) (h : e ∈ walkWatches entries) :
    ∃ p, e = .Watch p := by
  induction entries with
  | nil => simp [walkWatches] at h
  | cons x xs ih =>
    cases hx : x.info with
    | none => simp [walkWatches, hx] at h
    | some d =>
      cases d
      · simp only [walkWatches, hx] at h
        exact ih h
      · simp only [walkWatches, hx, List.mem_cons] at h
        rcases h with h | h
        · exact ⟨x.path, h⟩
        · exact ih h

theorem startLoopAndWalk_trace (s : State) (walk : List WalkEntry) :
    (startLoopAndWalk s walk).trace =
      s.world.trace ++ [.GoProcessChanges] ++ walkWatches walk := by
  have ht := Walk_trace walk (s.emit .GoProcessChanges)
  simp only [startLoopAndWalk]
  cases hW : Walk walk (s.emit .GoProcessChanges) with
  | panicked s2 =>
    rw [hW] at ht
    simpa [WalkOutcome.state, State.emit, World.emit] using ht
  | returned s2 err =>
    cases err with
    | some e => exact absurd hW (Walk_returns_nil _ _ _ _)
    | none =>
      rw [hW] at ht
      simpa [WalkOutcome.state, State.emit, World.emit] using ht

theorem startLoopAndWalk_exit (s : State) (walk : List WalkEntry) :
    (startLoopAndWalk s walk).exit ≠ .returned ∧
    ((∀ x ∈ walk, x.info ≠ none) → (startLoopAndWalk s walk).exit = .blocked) := by
  simp only [startLoopAndWalk]
  constructor
  · cases hW : Walk walk (s.emit .GoProcessChanges) <;> simp
  · intro hinfo
    rw [Walk_of_info walk _ hinfo]

theorem startLoopAndWalk_globals (s : State) (walk : List WalkEntry) (s0 : State)
    (h : (startLoopAndWalk s walk).globals = some s0) :
    s0.files = s.files ∧ s0.world.trace = (startLoopAndWalk s walk).trace := by
  have hf := Walk_files walk (s.emit .GoProcessChanges)
  simp only [startLoopAndWalk] at h ⊢
  cases hW : Walk walk (s.emit .GoProcessChanges) with
  | panicked s2 =>
    rw [hW] at h
    simp at h
  | returned s2 err =>
    cases err with
    | some e => exact absurd hW (Walk_returns_nil _ _ _ _)
    | none =>
      rw [hW] at h hf
      simp only [Option.some.injEq] at h
      subst h
      exact ⟨hf, rfl⟩

/-- The trace of `launchAndWatch` when the watcher is created: the status line, the
launch, the start of the polling task, then the subscribe requests of the walk.  No
error of the walk is printed. -/
theorem launchAndWatch_trace (o : Options) (files : List String) (env : MainEnv)
    (hw : env.newWatcher = none) :
    (launchAndWatch o files env).trace =
      [.Printf "Running [%s]...\n" [env.launch.now],
        .Start (makeRun files env.launch { nextId := 0, trace := [] }).1,
        .GoProcessChanges] ++ walkWatches env.walk := by
  unfold launchAndWatch
  simp only [hw]
  rw [startLoopAndWalk_trace]
  simp [makeRun_world]

theorem launchAndWatch_exit (o : Options) (files : List String) (env : MainEnv)
    (hw : env.newWatcher = none) :
    (launchAndWatch o files env).exit ≠ .returned ∧
    ((∀ x ∈ env.walk, x.info ≠ none) → (launchAndWatch o files env).exit = .blocked) := by
  unfold launchAndWatch
  simp only [hw]
  exact startLoopAndWalk_exit _ _

theorem launchAndWatch_starts (o : Options) (files : List String) (env : MainEnv) :
    startsOf (launchAndWatch o files env).trace =
      [(makeRun files env.launch { nextId := 0, trace := [] }).1] := by
  cases hw : env.newWatcher with
  | some e => simp [launchAndWatch, hw, State.emit, World.emit, makeRun_world, startsOf]
  | none =>
    rw [launchAndWatch_trace o files env hw, startsOf_append, startsOf_walkWatches]
    simp [startsOf]

theorem launchAndWatch_globals (o : Options) (files : List String) (env : MainEnv)
    (s0 : State) (h : (launchAndWatch o files env).globals = some s0) :
    s0.files = files ∧ s0.world.trace = (launchAndWatch o files env).trace := by
  unfold launchAndWatch at h ⊢
  cases hw : env.newWatcher with
  | some e => simp [hw] at h
  | none =>
    simp only [hw] at h ⊢
    exact startLoopAndWalk_globals _ _ s0 h

theorem usage_not_in_launchAndWatch (o : Options) (files : List String) (env : MainEnv) :
    Effect.Println ["Must have at least one file."] ∉ (launchAndWatch o files env).trace := by
  cases hw : env.newWatcher with
  | some e => simp [launchAndWatch, hw, State.emit, World.emit, makeRun_world]
  | none =>
    rw [launchAndWatch_trace o files env hw]
    intro h
    rcases List.mem_append.mp h with h1 | h1
    · simp at h1
    · obtain ⟨p, hp⟩ := mem_walkWatches _ _ h1
      simp at hp

theorem LaunchInv.of_quiet {s s1 : State} (h : Quiet s s1) (hi : LaunchInv s) :
    LaunchInv s1 := by
  intro c hc
  rw [h.startsOf] at hc
  rw [h.2.1]
  exact hi c hc

theorem tick_launchInv (s : State) (t : Tick) (hi : LaunchInv s) :
    LaunchInv (tick s t).state ∧ (tick s t).state.files = s.files := by
  have hq := drain_quiet s t.received
  have hd := LaunchInv.of_quiet hq hi
  by_cases h0 : numEvents t.received = 0
  · rw [tick_of_no_event s t h0]
    exact ⟨hd, hq.2.1⟩
  · have h1 : 1 ≤ numEvents t.received := by omega
    rw [tick_of_event s t h1]
    cases hp : (drain s t.received).1.cmd.Process with
    | none =>
      rw [restart_of_nil _ _ hp]
      exact ⟨hd, hq.2.1⟩
    | some pid =>
      rw [restart_of_process _ _ pid hp]
      refine ⟨?_, hq.2.1⟩
      intro c hc
      simp only [Outcome.state] at hc ⊢
      rw [relaunch_trace, startsOf_append] at hc
      rw [relaunch_files]
      rcases List.mem_append.mp hc with h | h
      · have h2 : c ∈ startsOf (drain s t.received).1.world.trace := by
          simpa [State.emit, World.emit, startsOf_append, startsOf] using h
        exact hd c h2
      · simp only [startsOf, List.mem_singleton] at h
        rw [h, relaunch_cmd, makeRun_cmd]

theorem processChanges_launchInv (ticks : List Tick) (s : State) (hi : LaunchInv s) :
    LaunchInv (processChanges s ticks).state ∧ (processChanges s ticks).state.files = s.files := by
  induction ticks generalizing s with
  | nil => exact ⟨hi, rfl⟩
  | cons t ts ih =>
    have ht := tick_launchInv s t hi
    simp only [processChanges]
    cases hk : tick s t with
    | running s1 =>
      rw [hk] at ht
      have := ih s1 ht.1
      exact ⟨this.1, this.2.trans ht.2⟩
    | panicked s1 =>
      rw [hk] at ht
      exact ht

theorem launchAndWatch_launchInv (o : Options) (files : List String) (env : MainEnv)
    (s0 : State) (h : (launchAndWatch o files env).globals = some s0) : LaunchInv s0 := by
  obtain ⟨hf, ht⟩ := launchAndWatch_globals o files env s0 h
  intro c hc
  rw [ht, launchAndWatch_starts, List.mem_singleton] at hc
  rw [hc, hf, makeRun_cmd]

/-! ## The claims on start-up -/

/-- C4: on a command line `prog, -v ... -v, f, rest...` with `f` different from `-v`,
`main` launches once, and the command line of the launch is `go` with the arguments
`run, f, rest...`: `Args` is the name `go` followed by exactly them, with neither the
program name nor the leading flags, and `Path` is what `exec.LookPath` finds for `go`
(the name itself when it finds nothing).  Every launch in the trace of the loop
started by this `main`, after any ticks, has that same command line; and each later
restart of a live child does launch it again. -/
theorem launch_arguments_fixed (prog : String) (k : Nat) (f : String) (rest : List String)
    (env : MainEnv) (hf : f ≠ "-v") :
    (startsOf (main (prog :: (List.replicate k "-v" ++ f :: rest)) env).trace).map
        (fun c => (c.Path, c.Args)) =
      [(env.launch.lookPath.getD "go", "go" :: "run" :: f :: rest)] ∧
    (∀ s0, (main (prog :: (List.replicate k "-v" ++ f :: rest)) env).globals = some s0 →
      ∀ ticks : List Tick, ∀ c ∈ startsOf (processChanges s0 ticks).state.world.trace,
        c.Args = "go" :: "run" :: f :: rest) ∧
    (∀ s0, (main (prog :: (List.replicate k "-v" ++ f :: rest)) env).globals = some s0 →
      ∀ (ticks : List Tick) (s1 : State) (t : Tick) (pid : Nat),
        processChanges s0 ticks = .running s1 → s1.cmd.Process = some pid →
        1 ≤ numEvents t.received →
        startsOf (tick s1 t).state.world.trace =
          startsOf s1.world.trace ++ [(tick s1 t).state.cmd] ∧
        (tick s1 t).state.cmd.Path = t.launch.lookPath.getD "go" ∧
        (tick s1 t).state.cmd.Args = "go" :: "run" :: f :: rest) := by
  rw [main_of_files prog k f rest env hf]
  have hinv : ∀ s0, (launchAndWatch (if k = 0 then { Verbose := false } else { Verbose := true })
      (f :: rest) env).globals = some s0 →
      ∀ ticks : List Tick, LaunchInv (processChanges s0 ticks).state ∧
        (processChanges s0 ticks).state.files = f :: rest := by
    intro s0 h0 ticks
    have h1 := processChanges_launchInv ticks s0 (launchAndWatch_launchInv _ _ _ s0 h0)
    exact ⟨h1.1, h1.2.trans (launchAndWatch_globals _ _ _ s0 h0).1⟩
  refine ⟨?_, ?_, ?_⟩
  · rw [launchAndWatch_starts, makeRun_cmd]
    rfl
  · intro s0 h0 ticks c hc
    obtain ⟨hi, hfiles⟩ := hinv s0 h0 ticks
    have := hi c hc
    rw [hfiles] at this
    exact this
  · intro s0 h0 ticks s1 t pid hrun hp hn
    obtain ⟨_, hfiles⟩ := hinv s0 h0 ticks
    rw [hrun] at hfiles
    simp only [Outcome.state] at hfiles
    obtain ⟨_, _, _, hs, _, _, ha, hpath, _⟩ := tick_restarts_live_child s1 t pid hp hn
    rw [hfiles] at ha
    exact ⟨hs, hpath, ha⟩

/-- Witness of C4: `goreload -v main.go`. -/
theorem launch_arguments_fixed_witness :
    "main.go" ≠ "-v" ∧
    ((startsOf (main ("goreload" :: (List.replicate 1 "-v" ++ "main.go" :: [])) goodEnv).trace).map
        (fun c => (c.Path, c.Args)) =
      [(goodEnv.launch.lookPath.getD "go", "go" :: "run" :: "main.go" :: [])] ∧
    (∀ s0, (main ("goreload" :: (List.replicate 1 "-v" ++ "main.go" :: [])) goodEnv).globals =
        some s0 →
      ∀ ticks : List Tick, ∀ c ∈ startsOf (processChanges s0 ticks).state.world.trace,
        c.Args = "go" :: "run" :: "main.go" :: []) ∧
    (∀ s0, (main ("goreload" :: (List.replicate 1 "-v" ++ "main.go" :: [])) goodEnv).globals =
        some s0 →
      ∀ (ticks : List Tick) (s1 : State) (t : Tick) (pid : Nat),
        processChanges s0 ticks = .running s1 → s1.cmd.Process = some pid →
        1 ≤ numEvents t.received →
        startsOf (tick s1 t).state.world.trace =
          startsOf s1.world.trace ++ [(tick s1 t).state.cmd] ∧
        (tick s1 t).state.cmd.Path = t.launch.lookPath.getD "go" ∧
        (tick s1 t).state.cmd.Args = "go" :: "run" :: "main.go" :: [])) :=
  ⟨by decide, launch_arguments_fixed "goreload" 1 "main.go" [] goodEnv (by decide)⟩

/-- C5 (evaluation at the input where the code departs from the claim): on the program
name alone `main` prints the usage message and returns, but on the program name
followed by one or more `-v` flags and no file it does not.  The flag loop ends
without its `break`, `filesArgsIndex` keeps its zero value and is never equal to
`len(os.Args)`, so the second check does not fire: `main` launches
`go run prog -v ...`, the usage message is not printed, and when the watcher is
created the polling task is started and `main` does not return: it blocks, on every
walk whose entries all have their file info. -/
theorem flags_only_still_launches (prog : String) (k : Nat) (env : MainEnv) :
    main [prog] env = usageExit ∧
    (flagLoop (List.replicate (k + 1) "-v") 1 { Verbose := false } 0).2 = 0 ∧
    main (prog :: List.replicate (k + 1) "-v") env ≠ usageExit ∧
    (startsOf (main (prog :: List.replicate (k + 1) "-v") env).trace).map (fun c => c.Args) =
      ["go" :: "run" :: prog :: List.replicate (k + 1) "-v"] ∧
    Effect.Println ["Must have at least one file."] ∉
      (main (prog :: List.replicate (k + 1) "-v") env).trace ∧
    Effect.GoProcessChanges ∈
      (main (prog :: List.replicate (k + 1) "-v") { env with newWatcher := none }).trace ∧
    (main (prog :: List.replicate (k + 1) "-v") { env with newWatcher := none }).exit ≠
      .returned ∧
    (∀ walked : List (String × Bool),
      (main (prog :: List.replicate (k + 1) "-v")
        { env with newWatcher := none, walk := walked.map WalkEntry.found }).exit =
      .blocked) := by
  have hu := usage_not_in_launchAndWatch { Verbose := true }
    (prog :: List.replicate (k + 1) "-v") env
  refine ⟨by simp [main], by rw [flagLoop_flags_only], ?_, ?_, ?_, ?_, ?_, ?_⟩
  · rw [main_of_flags_only]
    intro h
    rw [h] at hu
    simp [usageExit] at hu
  · rw [main_of_flags_only, launchAndWatch_starts, makeRun_cmd]
    rfl
  · rw [main_of_flags_only]
    exact hu
  · rw [main_of_flags_only, launchAndWatch_trace _ _ _ rfl]
    simp
  · rw [main_of_flags_only]
    exact (launchAndWatch_exit _ _ _ rfl).1
  · intro walked
    rw [main_of_flags_only]
    apply (launchAndWatch_exit _ _ _ rfl).2
    intro x hx
    obtain ⟨y, _, hy⟩ := List.mem_map.mp hx
    rw [← hy]
    simp [WalkEntry.found]

/-- C8 (counterexample): when the initial walk fails, `main` neither reports the
failure nor exits without entering the loop.  Where `lstat` of an entry fails, the
polling task has been started, `visit` dereferences the nil file info it is handed and
the program panics, nothing having been reported; where a directory cannot be read,
the polling task has been started, the walk ends without an error, nothing is
reported and `main` blocks. -/
theorem walk_failure_does_not_exit :
    (Effect.GoProcessChanges ∈ (main ["goreload", "main.go"] vanishedFileEnv).trace ∧
      (main ["goreload", "main.go"] vanishedFileEnv).exit = Exit.panicked ∧
      (main ["goreload", "main.go"] vanishedFileEnv).exit ≠ Exit.returned ∧
      Effect.Println ["Error: ", "lstat .main.go.swp: no such file or directory"] ∉
        (main ["goreload", "main.go"] vanishedFileEnv).trace) ∧
    (Effect.GoProcessChanges ∈ (main ["goreload", "main.go"] unreadableDirEnv).trace ∧
      (main ["goreload", "main.go"] unreadableDirEnv).exit = Exit.blocked ∧
      (main ["goreload", "main.go"] unreadableDirEnv).exit ≠ Exit.returned ∧
      Effect.Println ["Error: ", "open sub: permission denied"] ∉
        (main ["goreload", "main.go"] unreadableDirEnv).trace) := by
  decide

/-- C8 (amended): once the argument checks are passed, an error of
`fsnotify.NewWatcher` is reported (`Fatal error: `) as the last thing `main` does, the
polling task is not started and `main` returns.  The initial walk is not a fatal
step: the polling task is started before the walk begins, whatever the walk then
meets, and `main` does not return after it; when every entry of the walk has its file
info, `main` blocks. -/
theorem setup_errors (args : List String) (launch : Launch) (walk : List WalkEntry)
    (e : String) (h : passesArgChecks args) :
    ((main args ⟨launch, some e, walk⟩).trace.getLast? =
        some (.Println ["Fatal error: ", e]) ∧
      Effect.GoProcessChanges ∉ (main args ⟨launch, some e, walk⟩).trace ∧
      (main args ⟨launch, some e, walk⟩).exit = .returned ∧
      (main args ⟨launch, some e, walk⟩).globals = none) ∧
    ((main args ⟨launch, none, walk⟩).trace =
        (main args ⟨launch, none, []⟩).trace ++ walkWatches walk ∧
      (main args ⟨launch, none, []⟩).trace.getLast? = some .GoProcessChanges ∧
      Effect.GoProcessChanges ∈ (main args ⟨launch, none, walk⟩).trace ∧
      (main args ⟨launch, none, walk⟩).exit ≠ .returned ∧
      ((∀ x ∈ walk, x.info ≠ none) → (main args ⟨launch, none, walk⟩).exit = .blocked)) := by
  obtain ⟨h1, h2⟩ := h
  have hm : ∀ env, main args env =
      launchAndWatch (flagLoop (args.drop 1) 1 { Verbose := false } 0).1
        (args.drop (flagLoop (args.drop 1) 1 { Verbose := false } 0).2) env := by
    intro env
    simp only [main, h1, h2, if_false]
  rw [hm, hm, hm]
  refine ⟨⟨?_, ?_, rfl, rfl⟩, ⟨?_, ?_, ?_, ?_, ?_⟩⟩
  · simp [launchAndWatch, State.emit, World.emit, makeRun_world]
  · simp [launchAndWatch, State.emit, World.emit, makeRun_world]
  · rw [launchAndWatch_trace _ _ _ rfl, launchAndWatch_trace _ _ _ rfl]
    simp [walkWatches]
  · rw [launchAndWatch_trace _ _ _ rfl]
    simp [walkWatches]
  · rw [launchAndWatch_trace _ _ _ rfl]
    simp
  · exact (launchAndWatch_exit _ _ ⟨launch, none, walk⟩ rfl).1
  · exact (launchAndWatch_exit _ _ ⟨launch, none, walk⟩ rfl).2

/-- Witness of C8 (amended): `goreload main.go`. -/
theorem setup_errors_witness :
    passesArgChecks ["goreload", "main.go"] ∧
    (((main ["goreload", "main.go"]
          ⟨goodEnv.launch, some "too many open files", goodEnv.walk⟩).trace.getLast? =
        some (.Println ["Fatal error: ", "too many open files"]) ∧
      Effect.GoProcessChanges ∉ (main ["goreload", "main.go"]
          ⟨goodEnv.launch, some "too many open files", goodEnv.walk⟩).trace ∧
      (main ["goreload", "main.go"]
          ⟨goodEnv.launch, some "too many open files", goodEnv.walk⟩).exit = .returned ∧
      (main ["goreload", "main.go"]
          ⟨goodEnv.launch, some "too many open files", goodEnv.walk⟩).globals = none) ∧
    ((main ["goreload", "main.go"] ⟨goodEnv.launch, none, goodEnv.walk⟩).trace =
        (main ["goreload", "main.go"] ⟨goodEnv.launch, none, []⟩).trace ++
          walkWatches goodEnv.walk ∧
      (main ["goreload", "main.go"] ⟨goodEnv.launch, none, []⟩).trace.getLast? =
        some .GoProcessChanges ∧
      Effect.GoProcessChanges ∈
        (main ["goreload", "main.go"] ⟨goodEnv.launch, none, goodEnv.walk⟩).trace ∧
      (main ["goreload", "main.go"] ⟨goodEnv.launch, none, goodEnv.walk⟩).exit ≠ .returned ∧
      ((∀ x ∈ goodEnv.walk, x.info ≠ none) →
        (main ["goreload", "main.go"] ⟨goodEnv.launch, none, goodEnv.walk⟩).exit = .blocked))) :=
  ⟨by decide,
    setup_errors ["goreload", "main.go"] goodEnv.launch goodEnv.walk
      "too many open files" (by decide)⟩

end Goreload
